import Mathlib

/-!
Shallow embedding of `src/main.py` (RevIT flashcard quiz application).

The program keeps an in-memory list of question records (Python dicts),
loads and saves them as a JSON document, grades quiz answers, builds
multiple-choice option lists, and supports admin add/save/delete actions.

Modelling conventions:
* JSON values and in-memory Python values appearing in question rows are
  modelled by the inductive `PyVal` (None, bool, int, str, list, dict with
  string keys — the only dict keys this program ever creates are strings).
* Each call of `str(uuid.uuid4())` is modelled by a fresh-name supply
  `gen : Nat → String`, indexed by the position of the row (for load) that
  may consume a fresh id; uuid uniqueness and non-emptiness become explicit
  hypotheses on `gen`.
* `random.sample(xs, k)` is modelled by an arbitrary list of k pairwise
  distinct valid positions into xs; `random.shuffle` by an arbitrary
  permutation; `random.randint(0, n-1)` by an arbitrary value below n.
* A `save_questions` call is recorded in the result of the operation as one
  snapshot of the full collection in a `persisted` list.
* Python `str.strip()` / `str.lower()` are modelled by `pyStrip` /
  `pyLower` below (the claims only exercise ASCII data).
-/

/-- Python/JSON values as they occur in this program. -/
inductive PyVal where
  | none : PyVal
  | bool : Bool → PyVal
  | int : Int → PyVal
  | str : String → PyVal
  | list : List PyVal → PyVal
  | dict : List (String × PyVal) → PyVal

/-- Python truthiness for the values above. -/
def PyVal.truthy : PyVal → Bool
  | .none => false
  | .bool b => b
  | .int n => n != 0
  | .str s => s != ""
  | .list xs => !xs.isEmpty
  | .dict kvs => !kvs.isEmpty

/-- Python `a or b`: `a` when truthy, else `b`. -/
def PyVal.pyOr (a b : PyVal) : PyVal := if a.truthy then a else b

/-- Python `d.get(key, default)` on a dict value (JSON object keys are unique,
so first-match lookup agrees with dict lookup). On a non-dict this program
never calls `.get`. -/
def PyVal.get (v : PyVal) (key : String) (dflt : PyVal) : PyVal :=
  match v with
  | .dict kvs => ((kvs.lookup key).getD dflt)
  | _ => dflt

/-- Python subscript `v[k]` with an integer key `k`.
On a list it is positional indexing (negative or out-of-range raises, hence
`Option`).  On a dict it looks the integer up as a key; every dict this
program builds has only string keys, so the lookup raises `KeyError`,
modelled as `Option.none`.  On other values subscripting raises. -/
def PyVal.getItem : PyVal → Int → Option PyVal
  | .list xs, k => if h : 0 ≤ k ∧ k.toNat < xs.length then some (xs.get ⟨k.toNat, h.2⟩) else Option.none
  | .dict _, _ => Option.none
  | _, _ => Option.none

/-- Python comparison `v > 0` and arithmetic need an int; `bool` is an int
subtype in Python (`True == 1`). Any other operand raises `TypeError`. -/
def PyVal.asInt : PyVal → Option Int
  | .int n => some n
  | .bool b => some (if b then 1 else 0)
  | _ => Option.none

/-- True iff the value is a Python/JSON string. -/
def PyVal.isStr : PyVal → Bool
  | .str _ => true
  | _ => false

/-- A canonical (well-typed) question record, as produced by the admin form
or stored by `save_questions`: the dict shape built by `_make_question` with
each field at its intended type. -/
structure Question where
  id : String
  definition : String
  term : String
  attempts : Int
  correct_count : Int
  wrong_count : Int
  last_seen : Option String
  topic : String
  level : String
  tags : List String
  notes : String
deriving DecidableEq, Inhabited

/-- The in-memory dict (equally: the JSON object written by
`save_questions`, since `json.dump` maps str/int/None/list dicts to JSON
one-to-one) holding a canonical record; key order as in `_make_question`. -/
def Question.toDict (q : Question) : PyVal :=
  .dict [("id", .str q.id),
         ("definition", .str q.definition),
         ("term", .str q.term),
         ("attempts", .int q.attempts),
         ("correct_count", .int q.correct_count),
         ("wrong_count", .int q.wrong_count),
         ("last_seen", match q.last_seen with | Option.none => .none | some s => .str s),
         ("topic", .str q.topic),
         ("level", .str q.level),
         ("tags", .list (q.tags.map .str)),
         ("notes", .str q.notes)]

/-- Function `_make_question` from `src/main.py`, over Python values; `fresh` is the
string a `str(uuid.uuid4())` call would return at this point. -/
def make_question (definition term attempts correct_count wrong_count
    last_seen topic level tags notes id_ : PyVal) (fresh : String) : PyVal :=
  .dict [("id", id_.pyOr (.str fresh)),
         ("definition", definition.pyOr (.str "")),
         ("term", term.pyOr (.str "")),
         ("attempts", attempts.pyOr (.int 0)),
         ("correct_count", correct_count.pyOr (.int 0)),
         ("wrong_count", wrong_count.pyOr (.int 0)),
         ("last_seen", last_seen),
         ("topic", topic.pyOr (.str "")),
         ("level", level.pyOr (.str "")),
         ("tags", tags.pyOr (.list [])),
         ("notes", notes.pyOr (.str ""))]

/-- One loop iteration of `load_questions`: a list row is migrated as legacy
`[definition, term, attempts]`, a dict row is normalised via
`_make_question`, any other row is skipped (`Option.none`). -/
def loadRow (item : PyVal) (fresh : String) : Option PyVal :=
  match item with
  | .list xs =>
      some (make_question (xs.getD 0 (.str "")) (xs.getD 1 (.str ""))
        (xs.getD 2 (.int 0)) (.int 0) (.int 0) .none (.str "") (.str "")
        .none (.str "") .none fresh)
  | .dict _ =>
      some (make_question (item.get "definition" (.str "")) (item.get "term" (.str ""))
        (item.get "attempts" (.int 0)) (item.get "correct_count" (.int 0))
        (item.get "wrong_count" (.int 0)) (item.get "last_seen" .none)
        (item.get "topic" (.str "")) (item.get "level" (.str ""))
        (item.get "tags" (.list [])) (item.get "notes" (.str ""))
        (item.get "id" .none) fresh)
  | _ => Option.none

/-- Function `load_questions` from `src/main.py`, once the JSON document has parsed
to the row list `rows`; `gen k` is the uuid string available to the row at
overall position `k` (rows that keep a stored id simply do not use it). -/
def load_questions (rows : List PyVal) (gen : Nat → String) (k : Nat) : List PyVal :=
  match rows with
  | [] => []
  | item :: rest =>
      match loadRow item (gen k) with
      | some q => q :: load_questions rest gen (k + 1)
      | Option.none => load_questions rest gen (k + 1)

/-- Function `save_questions` from `src/main.py`: serialize the whole collection.
On canonical records `json.dump` writes exactly the dicts of the records,
so the stored row list is their dict images. -/
def save_questions (qs : List Question) : List PyVal := qs.map Question.toDict

/-- Function `get_stats` from `src/main.py`, processing the collection in order with
the three running totals.  Each record `q` is a dict, and the code reads
`q[2]` (an integer subscript, left over from the legacy list format), so a
`KeyError` — `Option.none` here — is raised on the first record. -/
def getStatsAux : Int × Int × Int → List PyVal → Option (Int × Int × Int)
  | acc, [] => some acc
  | acc, q :: rest =>
      match (q.getItem 2).bind PyVal.asInt with
      | Option.none => Option.none
      | some v =>
          getStatsAux
            (if v > 0 then (acc.1 + 1, acc.2.1, acc.2.2 + v)
             else (acc.1, acc.2.1 + 1, acc.2.2 + v)) rest

/-- The aggregate `get_stats()` over the in-memory collection. -/
def get_stats (qs : List PyVal) : Option (Int × Int × Int) := getStatsAux (0, 0, 0) qs

/-- Function `index_clamp` from `src/main.py`: `max(0, min(i, n - 1))`. -/
def index_clamp (i n : Int) : Int := max 0 (min i (n - 1))

/-- Function `find_index_by_id` from `src/main.py`: first position whose record has
the given id, else `None`. -/
def find_index_by_id (qs : List Question) (qid : String) : Option Nat :=
  match qs with
  | [] => Option.none
  | q :: rest =>
      if q.id = qid then some 0 else (find_index_by_id rest qid).map (· + 1)

/-- Python `str.strip()` on a character list: drop whitespace from both
ends (the claims only exercise ASCII whitespace). -/
def pyStripList (cs : List Char) : List Char :=
  ((cs.dropWhile Char.isWhitespace).reverse.dropWhile Char.isWhitespace).reverse

/-- Python `str.strip()`. -/
def pyStrip (s : String) : String := ⟨pyStripList s.data⟩

/-- Python `str.lower()` (the claims only exercise ASCII letters). -/
def pyLower (s : String) : String := ⟨s.data.map Char.toLower⟩

/-- Python `int(s)` on a string: surrounding whitespace allowed, optional
single sign, then at least one decimal digit; anything else raises
`ValueError` (digit-group underscores, also accepted by Python, are not
exercised by any claim and are not modelled). -/
def pyIntOfString (s : String) : Option Int :=
  let t := pyStripList s.data
  let signDigits : Int × List Char :=
    match t with
    | '-' :: rest => (-1, rest)
    | '+' :: rest => (1, rest)
    | _ => (1, t)
  if signDigits.2 ≠ [] ∧ signDigits.2.all Char.isDigit then
    some (signDigits.1 *
      (Int.ofNat (signDigits.2.foldl (fun acc c => acc * 10 + (c.toNat - 48)) 0)))
  else Option.none

/-- Coercion `int(request.form.get(key, 0) or 0)` for the numeric admin-form fields
(`attempts`, `correct_count`, `wrong_count`): an absent field gives the
default `0` (an int, so `int(0) = 0`); an empty string is falsy so
`"" or 0` is `0`; any other string goes through `int(s)`, whose failure
propagates (`Option.none` = `ValueError`). -/
def parseNumField : Option String → Option Int
  | Option.none => some 0
  | some s => if s = "" then some 0 else pyIntOfString s

/-- Admin action discriminator for the add/save branch. -/
inductive AdminAction where
  | add : AdminAction
  | save : AdminAction
deriving DecidableEq

/-- Result of an admin mutation: the new collection, the new
`session["admin_index"]`, and the collection snapshots passed to
`save_questions` during the action. -/
structure AdminResult where
  questions : List Question
  admin_index : Int
  persisted : List (List Question)
deriving DecidableEq

/-- The add/save branch of `question_admin` (src/main.py lines 179-209),
applied to the already-normalised form record `form_q`:
`if action == "add" or find_index_by_id(form_q["id"]) is None:` append and
point the admin index at the new last position, `else` overwrite in place
and point the admin index there; then persist. -/
def adminAddSave (qs : List Question) (action : AdminAction) (form_q : Question) :
    AdminResult :=
  if action = AdminAction.add ∨ find_index_by_id qs form_q.id = Option.none then
    let qs2 := qs ++ [form_q]
    { questions := qs2, admin_index := (qs2.length : Int) - 1, persisted := [qs2] }
  else
    -- here find_index_by_id is some i; getD is never used at its default
    let i := (find_index_by_id qs form_q.id).getD 0
    let qs2 := qs.set i form_q
    { questions := qs2, admin_index := (i : Int), persisted := [qs2] }

/-- The delete branch of `question_admin` (src/main.py lines 211-219):
with a non-empty id that is found, remove the record, clamp the admin index
into `max(1, len(questions))`, and persist; otherwise do nothing. -/
def adminDelete (qs : List Question) (qid : String) : AdminResult :=
  if qid = "" then { questions := qs, admin_index := 0, persisted := [] }
  else
    match find_index_by_id qs qid with
    | Option.none => { questions := qs, admin_index := 0, persisted := [] }
    | some i =>
        let qs2 := qs.eraseIdx i
        { questions := qs2, admin_index := index_clamp (i : Int) (max 1 (qs2.length : Int)),
          persisted := [qs2] }

/-- Route `GET /shuffle` permutes the in-memory collection (`random.shuffle`);
the reachable outcomes are exactly the permutations of the collection. -/
def shuffleReachable (qs qs' : List Question) : Prop := qs.Perm qs'

/-- Result of grading one submitted answer in the `quiz` handler. -/
structure GradeResult where
  questions : List Question
  index : Nat
  mc_mode : Bool
  wasCorrect : Bool
  persisted : List (List Question)
deriving DecidableEq

/-- The grading branch of `quiz` (src/main.py lines 251-272), reached when
the collection is non-empty and `answer` is a non-empty string.  `idx` is
`current_question_index`, `now` the timestamp, `rand` the value of
`random.randint(0, len(questions) - 1)` used on a correct answer.
The submitted answer is stripped and lowercased; the stored term is only
lowercased.  One `save_questions` call happens in either branch. -/
def gradeAnswer (qs : List Question) (idx : Nat) (answer now : String) (rand : Nat) :
    GradeResult :=
  let given := pyLower (pyStrip answer)
  let correct := pyLower (qs.getD idx default).term
  let q := qs.getD idx default
  let q1 := { q with attempts := q.attempts + 1, last_seen := some now }
  if given = correct then
    let q2 := { q1 with correct_count := q1.correct_count + 1 }
    let qs2 := qs.set idx q2
    { questions := qs2, index := rand, mc_mode := false, wasCorrect := true,
      persisted := [qs2] }
  else
    let q2 := { q1 with wrong_count := q1.wrong_count + 1 }
    let qs2 := qs.set idx q2
    { questions := qs2, index := idx, mc_mode := true, wasCorrect := false,
      persisted := [qs2] }

/-- The list `all_terms` in the multiple-choice construction (src/main.py line 278):
the terms of all questions whose term differs from the current term, in
collection order, NOT deduplicated. -/
def allTerms (qs : List Question) (idx : Nat) : List String :=
  (qs.filter (fun q => q.term ≠ (qs.getD idx default).term)).map Question.term

/-- Sampling `random.sample(xs, k)` draws k elements at pairwise-distinct positions;
a concrete draw is a list of positions `picks`. -/
def sampleByIdx (xs : List String) (picks : List Nat) : List String :=
  picks.map (fun j => xs.getD j "")

/-- Validity of one `random.sample(xs, k)` draw. -/
def validSample (xs : List String) (k : Nat) (picks : List Nat) : Prop :=
  picks.Nodup ∧ picks.length = k ∧ ∀ j ∈ picks, j < xs.length

/-- The list `mc_options` before the final `random.shuffle` (src/main.py lines
277-280): the current term consed onto `random.sample(all_terms,
min(3, len(all_terms)))` (the sample realised by `picks`); the final
shuffle only permutes this list. -/
def mcOptions (qs : List Question) (idx : Nat) (picks : List Nat) : List String :=
  (qs.getD idx default).term :: sampleByIdx (allTerms qs idx) picks

/-- The ids of the records of a collection, in order. -/
def qIds (qs : List Question) : List String := qs.map Question.id

/-- The `id` value of an in-memory record produced by `load_questions`. -/
def loadedId (r : PyVal) : PyVal := r.get "id" .none

/-- The stored id a row carries into `load_questions`, when truthy (only a
dict row with a truthy `id` value keeps it; every other accepted row gets a
fresh uuid). -/
def storedId (item : PyVal) : Option PyVal :=
  match item with
  | .dict _ =>
      if (item.get "id" PyVal.none).truthy then some (item.get "id" PyVal.none)
      else Option.none
  | _ => Option.none

/-- All truthy stored ids of a row list, in order, with multiplicity. -/
def storedIds (rows : List PyVal) : List PyVal := rows.filterMap storedId

/-- Convenient constructor for a canonical record with empty metadata. -/
def mkQ (i d t : String) (a c w : Int) : Question :=
  { id := i, definition := d, term := t, attempts := a, correct_count := c,
    wrong_count := w, last_seen := Option.none, topic := "", level := "",
    tags := [], notes := "" }

theorem find_index_by_id_some {qs : List Question} {qid : String} {i : Nat}
    (h : find_index_by_id qs qid = some i) :
    i < qs.length ∧ (qs.getD i default).id = qid := by
  induction qs generalizing i with
  | nil => simp [find_index_by_id] at h
  | cons q rest ih =>
    by_cases hq : q.id = qid
    · simp [find_index_by_id, hq] at h
      subst h
      simpa using hq
    · simp only [find_index_by_id, hq, if_false] at h
      cases hfind : find_index_by_id rest qid with
      | none => rw [hfind] at h; simp at h
      | some j =>
        rw [hfind] at h
        simp only [Option.map_some'] at h
        obtain ⟨hlt, hid⟩ := ih hfind
        obtain rfl : j + 1 = i := Option.some.inj h
        exact ⟨by simpa using Nat.succ_lt_succ hlt, by simpa using hid⟩

theorem find_index_by_id_none {qs : List Question} {qid : String} :
    find_index_by_id qs qid = Option.none ↔ ∀ q ∈ qs, q.id ≠ qid := by
  induction qs with
  | nil => simp [find_index_by_id]
  | cons q rest ih =>
    by_cases hq : q.id = qid
    · simp [find_index_by_id, hq]
    · simp [find_index_by_id, hq, Option.map_eq_none', ih]


/-- C1: the stats aggregate does not compute the claimed triple — it
crashes.  Every in-memory record is a dict, and `get_stats` reads `q[2]`
(an integer subscript left over from the legacy list format), which raises
`KeyError` on the first record.  On five canonical records, three of which
have `attempts > 0`, the claim expects `answered = 3`, `unanswered = 2` and
the sum of `correct_count`; the code produces no triple at all. -/
theorem get_stats_keyerror_on_canonical_records :
    get_stats (List.map Question.toDict
      [mkQ "a" "d1" "t1" 2 1 1, mkQ "b" "d2" "t2" 1 0 1, mkQ "c" "d3" "t3" 3 2 1,
       mkQ "d" "d4" "t4" 0 0 0, mkQ "e" "d5" "t5" 0 0 0]) = Option.none := rfl

/-- C4 counterexample: the non-empty numeric-field input "abc" fails to
parse and raises `ValueError` (modelled as `Option.none`), instead of
falling back to 0 as the claim states. -/
theorem parseNumField_no_zero_fallback_on_abc :
    parseNumField (some "abc") = Option.none ∧ parseNumField (some "abc") ≠ some 0 :=
  ⟨by decide, by decide⟩

/-- C4 (amended): each numeric admin-form field is coerced with `int(...)`;
a missing field or an empty string falls back to 0 and integer literals
parse to their value, but a non-empty input that does not parse as an
integer raises `ValueError` — the submission errors out — rather than
falling back to 0. -/
theorem parseNumField_spec :
    parseNumField Option.none = some 0 ∧
    parseNumField (some "") = some 0 ∧
    parseNumField (some "17") = some 17 ∧
    parseNumField (some " -3 ") = some (-3) ∧
    parseNumField (some "abc") = Option.none :=
  ⟨by decide, by decide, by decide, by decide, by decide⟩

/-- C2 counterexample: an `add` submission whose id matches the only
existing record is appended — duplicating the id — rather than overwriting
in place, because the dispatch tests `action == "add" or
find_index_by_id(...) is None`; it does not depend only on the id match. -/
theorem adminAddSave_add_with_matching_id_appends :
    (adminAddSave [mkQ "a" "d" "t" 0 0 0] AdminAction.add
        (mkQ "a" "d2" "t2" 1 1 0)).questions
      = [mkQ "a" "d" "t" 0 0 0, mkQ "a" "d2" "t2" 1 1 0] ∧
    (adminAddSave [mkQ "a" "d" "t" 0 0 0] AdminAction.add
        (mkQ "a" "d2" "t2" 1 1 0)).questions
      ≠ [mkQ "a" "d2" "t2" 1 1 0] :=
  ⟨rfl, by decide⟩

/-- C2 (amended): on an add/save submission the normalised record is
appended (admin index pointing at the new last position) when the action is
`add` OR its id matches no existing record; only a `save` whose id matches
an existing record overwrites that record in place — at the first position
carrying the id, leaving every other record unchanged — and points the
admin index there.  The collection is persisted after every add/save. -/
theorem adminAddSave_spec (qs : List Question) (action : AdminAction)
    (form_q : Question) :
    ((adminAddSave qs action form_q).persisted
        = [(adminAddSave qs action form_q).questions]) ∧
    ((action = AdminAction.add ∨ find_index_by_id qs form_q.id = Option.none) →
      (adminAddSave qs action form_q).questions = qs ++ [form_q] ∧
      (adminAddSave qs action form_q).admin_index = (qs.length : Int) ∧
      (adminAddSave qs action form_q).admin_index
        = ((adminAddSave qs action form_q).questions.length : Int) - 1) ∧
    (∀ i, action = AdminAction.save → find_index_by_id qs form_q.id = some i →
      i < qs.length ∧ (qs.getD i default).id = form_q.id ∧
      (adminAddSave qs action form_q).questions = qs.set i form_q ∧
      (adminAddSave qs action form_q).questions.getD i default = form_q ∧
      (∀ j, j ≠ i → (adminAddSave qs action form_q).questions.getD j default
          = qs.getD j default) ∧
      (adminAddSave qs action form_q).admin_index = (i : Int)) := by
  refine ⟨?_, ?_, ?_⟩
  · by_cases hcond : action = AdminAction.add ∨ find_index_by_id qs form_q.id = Option.none
    · simp [adminAddSave, hcond]
    · simp [adminAddSave, hcond]
  · intro hcond
    rw [adminAddSave, if_pos hcond]
    refine ⟨rfl, ?_, ?_⟩ <;> simp [List.length_append]
  · intro i hact hfind
    subst hact
    have hne : ¬ (AdminAction.save = AdminAction.add ∨
        find_index_by_id qs form_q.id = Option.none) := by
      simp [hfind]
    obtain ⟨hlt, hid⟩ := find_index_by_id_some hfind
    rw [adminAddSave, if_neg hne, hfind]
    refine ⟨hlt, hid, rfl, ?_, ?_, rfl⟩
    · show (qs.set i form_q).getD i default = form_q
      rw [List.getD_eq_getElem?_getD, List.getElem?_set_eq_of_lt _ hlt]
      rfl
    · intro j hj
      show (qs.set i form_q).getD j default = qs.getD j default
      rw [List.getD_eq_getElem?_getD, List.getElem?_set_ne (fun h => hj h.symm),
        ← List.getD_eq_getElem?_getD]

/-- C2 witness: a save whose id matches the only record overwrites it in
place and keeps the admin index at its position. -/
theorem adminAddSave_spec_witness :
    (adminAddSave [mkQ "a" "d" "t" 0 0 0] AdminAction.save
        (mkQ "a" "d2" "t2" 1 1 0)).questions = [mkQ "a" "d2" "t2" 1 1 0] ∧
    (adminAddSave [mkQ "a" "d" "t" 0 0 0] AdminAction.save
        (mkQ "a" "d2" "t2" 1 1 0)).admin_index = 0 := by
  have h := (adminAddSave_spec [mkQ "a" "d" "t" 0 0 0] AdminAction.save
    (mkQ "a" "d2" "t2" 1 1 0)).2.2 0 rfl (by decide)
  exact ⟨by rw [h.2.2.1]; rfl, h.2.2.2.2.2⟩

theorem getD_set_self {l : List Question} {i : Nat} {a : Question} (h : i < l.length) :
    (l.set i a).getD i default = a := by
  rw [List.getD_eq_getElem?_getD, List.getElem?_set_eq_of_lt _ h]
  rfl

theorem getD_set_ne {l : List Question} {i j : Nat} {a : Question} (h : j ≠ i) :
    (l.set i a).getD j default = l.getD j default := by
  rw [List.getD_eq_getElem?_getD, List.getElem?_set_ne (fun he => h he.symm),
    ← List.getD_eq_getElem?_getD]

/-- The updated current record on a correct answer. -/
def gradedCorrect (q : Question) (now : String) : Question :=
  { q with
    attempts := q.attempts + 1
    last_seen := some now
    correct_count := q.correct_count + 1 }

/-- The updated current record on a wrong answer. -/
def gradedWrong (q : Question) (now : String) : Question :=
  { q with
    attempts := q.attempts + 1
    last_seen := some now
    wrong_count := q.wrong_count + 1 }

theorem gradeAnswer_match {qs : List Question} {idx : Nat} {answer now : String}
    {rand : Nat} (hm : pyLower (pyStrip answer) = pyLower (qs.getD idx default).term) :
    gradeAnswer qs idx answer now rand =
      { questions := qs.set idx (gradedCorrect (qs.getD idx default) now),
        index := rand, mc_mode := false, wasCorrect := true,
        persisted := [qs.set idx (gradedCorrect (qs.getD idx default) now)] } := by
  simp only [gradeAnswer, if_pos hm]
  rfl

theorem gradeAnswer_mismatch {qs : List Question} {idx : Nat} {answer now : String}
    {rand : Nat}
    (hm : ¬ pyLower (pyStrip answer) = pyLower (qs.getD idx default).term) :
    gradeAnswer qs idx answer now rand =
      { questions := qs.set idx (gradedWrong (qs.getD idx default) now),
        index := idx, mc_mode := true, wasCorrect := false,
        persisted := [qs.set idx (gradedWrong (qs.getD idx default) now)] } := by
  simp only [gradeAnswer, if_neg hm]
  rfl

/-- C8: each graded submission performs exactly one persist — of the full
updated collection — and mutates exactly the record that was current at
submission time: the collection keeps its length, every other record is
untouched, and the current record does change (its attempts counter grew);
on a mismatched answer the current index is kept unchanged. -/
theorem gradeAnswer_frame (qs : List Question) (idx : Nat) (answer now : String)
    (rand : Nat) (h1 : idx < qs.length) (_h2 : answer ≠ "") :
    ((gradeAnswer qs idx answer now rand).persisted
      = [(gradeAnswer qs idx answer now rand).questions]) ∧
    (gradeAnswer qs idx answer now rand).questions.length = qs.length ∧
    (∀ j, j ≠ idx → (gradeAnswer qs idx answer now rand).questions.getD j default
      = qs.getD j default) ∧
    (gradeAnswer qs idx answer now rand).questions.getD idx default
      ≠ qs.getD idx default ∧
    ((gradeAnswer qs idx answer now rand).wasCorrect = false →
      (gradeAnswer qs idx answer now rand).index = idx) := by
  by_cases hm : pyLower (pyStrip answer) = pyLower (qs.getD idx default).term
  · rw [gradeAnswer_match hm]
    refine ⟨rfl, by simp, ?_, ?_, ?_⟩
    · intro j hj
      exact getD_set_ne hj
    · rw [getD_set_self h1]
      intro he
      have ha := congrArg Question.attempts he
      simp [gradedCorrect] at ha
    · intro h
      simp at h
  · rw [gradeAnswer_mismatch hm]
    refine ⟨rfl, by simp, ?_, ?_, ?_⟩
    · intro j hj
      exact getD_set_ne hj
    · rw [getD_set_self h1]
      intro he
      have ha := congrArg Question.attempts he
      simp [gradedWrong] at ha
    · intro h
      rfl

/-- C8 witness: on a one-record collection and a wrong answer, exactly one
snapshot (the updated collection) is persisted and the index stays put. -/
theorem gradeAnswer_frame_witness :
    ((gradeAnswer [mkQ "a" "d" "t" 0 0 0] 0 "x" "now" 0).persisted
      = [(gradeAnswer [mkQ "a" "d" "t" 0 0 0] 0 "x" "now" 0).questions]) ∧
    (gradeAnswer [mkQ "a" "d" "t" 0 0 0] 0 "x" "now" 0).index = 0 := by
  have h := gradeAnswer_frame [mkQ "a" "d" "t" 0 0 0] 0 "x" "now" 0 (by decide) (by decide)
  exact ⟨h.1, h.2.2.2.2 (by decide)⟩

/-- C7: a graded submission increments the attempts of the current record by
exactly 1 and exactly one of correct_count (on a match) or wrong_count (on
a mismatch) by exactly 1, so grading preserves
`attempts = correct_count + wrong_count` on that record; and since a
mismatch keeps the current index, submitting two wrong answers in a row to
the same question adds exactly 2 to wrong_count and to attempts and leaves
correct_count unchanged. -/
theorem gradeAnswer_counts (qs : List Question) (idx : Nat) (answer now : String)
    (rand : Nat) (h1 : idx < qs.length) (_h2 : answer ≠ "") :
    (((gradeAnswer qs idx answer now rand).questions.getD idx default).attempts
      = (qs.getD idx default).attempts + 1) ∧
    ((gradeAnswer qs idx answer now rand).wasCorrect = true →
      ((gradeAnswer qs idx answer now rand).questions.getD idx default).correct_count
        = (qs.getD idx default).correct_count + 1 ∧
      ((gradeAnswer qs idx answer now rand).questions.getD idx default).wrong_count
        = (qs.getD idx default).wrong_count) ∧
    ((gradeAnswer qs idx answer now rand).wasCorrect = false →
      ((gradeAnswer qs idx answer now rand).questions.getD idx default).wrong_count
        = (qs.getD idx default).wrong_count + 1 ∧
      ((gradeAnswer qs idx answer now rand).questions.getD idx default).correct_count
        = (qs.getD idx default).correct_count) ∧
    ((qs.getD idx default).attempts
        = (qs.getD idx default).correct_count + (qs.getD idx default).wrong_count →
      ((gradeAnswer qs idx answer now rand).questions.getD idx default).attempts
        = ((gradeAnswer qs idx answer now rand).questions.getD idx default).correct_count
          + ((gradeAnswer qs idx answer now rand).questions.getD idx default).wrong_count) ∧
    (∀ answer2 now2 rand2, answer2 ≠ "" →
      pyLower (pyStrip answer) ≠ pyLower (qs.getD idx default).term →
      pyLower (pyStrip answer2) ≠ pyLower (qs.getD idx default).term →
      ((gradeAnswer (gradeAnswer qs idx answer now rand).questions
          (gradeAnswer qs idx answer now rand).index answer2 now2
          rand2).questions.getD idx default).wrong_count
        = (qs.getD idx default).wrong_count + 2 ∧
      ((gradeAnswer (gradeAnswer qs idx answer now rand).questions
          (gradeAnswer qs idx answer now rand).index answer2 now2
          rand2).questions.getD idx default).attempts
        = (qs.getD idx default).attempts + 2 ∧
      ((gradeAnswer (gradeAnswer qs idx answer now rand).questions
          (gradeAnswer qs idx answer now rand).index answer2 now2
          rand2).questions.getD idx default).correct_count
        = (qs.getD idx default).correct_count) := by
  refine ⟨?_, ?_, ?_, ?_, ?_⟩
  · by_cases hm : pyLower (pyStrip answer) = pyLower (qs.getD idx default).term
    · rw [gradeAnswer_match hm, getD_set_self h1]
      simp [gradedCorrect]
    · rw [gradeAnswer_mismatch hm, getD_set_self h1]
      simp [gradedWrong]
  · by_cases hm : pyLower (pyStrip answer) = pyLower (qs.getD idx default).term
    · rw [gradeAnswer_match hm, getD_set_self h1]
      intro _
      simp [gradedCorrect]
    · rw [gradeAnswer_mismatch hm]
      intro h
      exact absurd h (by simp)
  · by_cases hm : pyLower (pyStrip answer) = pyLower (qs.getD idx default).term
    · rw [gradeAnswer_match hm]
      intro h
      exact absurd h (by simp)
    · rw [gradeAnswer_mismatch hm, getD_set_self h1]
      intro _
      simp [gradedWrong]
  · intro hinv
    by_cases hm : pyLower (pyStrip answer) = pyLower (qs.getD idx default).term
    · rw [gradeAnswer_match hm, getD_set_self h1]
      simp only [gradedCorrect]
      omega
    · rw [gradeAnswer_mismatch hm, getD_set_self h1]
      simp only [gradedWrong]
      omega
  · intro answer2 now2 rand2 _ha2 hm1 hm2
    rw [gradeAnswer_mismatch hm1]
    have hlen2 : idx < (qs.set idx (gradedWrong (qs.getD idx default) now)).length := by
      simpa using h1
    have hq1 : (qs.set idx (gradedWrong (qs.getD idx default) now)).getD idx default
        = gradedWrong (qs.getD idx default) now := getD_set_self h1
    have hm2a : ¬ pyLower (pyStrip answer2) = pyLower
        ((qs.set idx (gradedWrong (qs.getD idx default) now)).getD idx default).term := by
      rw [hq1]
      simpa [gradedWrong] using hm2
    rw [gradeAnswer_mismatch hm2a, getD_set_self hlen2, hq1]
    refine ⟨?_, ?_, ?_⟩ <;> simp [gradedWrong] <;> omega

/-- C7 witness: on a record with attempts 3, correct 1, wrong 2, a wrong
answer bumps attempts to 4, and a second wrong answer brings wrong_count
to 4. -/
theorem gradeAnswer_counts_witness :
    ((gradeAnswer [mkQ "a" "d" "t" 3 1 2] 0 "z" "now" 0).questions.getD 0
      default).attempts = 4 ∧
    ((gradeAnswer (gradeAnswer [mkQ "a" "d" "t" 3 1 2] 0 "z" "now" 0).questions
        (gradeAnswer [mkQ "a" "d" "t" 3 1 2] 0 "z" "now" 0).index "y" "n2"
        0).questions.getD 0 default).wrong_count = 4 := by
  have h := gradeAnswer_counts [mkQ "a" "d" "t" 3 1 2] 0 "z" "now" 0 (by decide) (by decide)
  refine ⟨?_, ?_⟩
  · rw [h.1]
    decide
  · have h5 := h.2.2.2.2 "y" "n2" 0 (by decide) (by decide) (by decide)
    rw [h5.1]
    decide

/-- C6 counterexample: the submitted answer is stripped before comparison
but the stored term is not: for a record whose term is " Loop" (leading
space), the answer "loop" equals the term once both are trimmed and
lowercased, yet the code grades it wrong. -/
theorem gradeAnswer_term_whitespace_counterexample :
    pyLower (pyStrip "loop") = pyLower (pyStrip " Loop") ∧
    (gradeAnswer [mkQ "L" "A control structure" " Loop" 0 0 0] 0 "loop" "t"
      0).wasCorrect = false :=
  ⟨by decide, by decide⟩

/-- C6 (amended): for every non-empty collection and non-empty answer, the
answer is graded correct iff the answer trimmed-and-lowercased equals the
term lowercased — the stored term is NOT trimmed of surrounding whitespace;
in particular a correct grade increments correct_count and attempts by 1,
sets last_seen, and leaves the new current index valid. -/
theorem gradeAnswer_match_rule (qs : List Question) (idx : Nat) (answer now : String)
    (rand : Nat) (h1 : idx < qs.length) (_h2 : answer ≠ "") (h3 : rand < qs.length) :
    ((gradeAnswer qs idx answer now rand).wasCorrect = true ↔
      pyLower (pyStrip answer) = pyLower ((qs.getD idx default).term)) ∧
    ((gradeAnswer qs idx answer now rand).wasCorrect = true →
      ((gradeAnswer qs idx answer now rand).questions.getD idx default).correct_count
        = (qs.getD idx default).correct_count + 1 ∧
      ((gradeAnswer qs idx answer now rand).questions.getD idx default).attempts
        = (qs.getD idx default).attempts + 1 ∧
      ((gradeAnswer qs idx answer now rand).questions.getD idx default).last_seen
        = some now ∧
      (gradeAnswer qs idx answer now rand).index
        < (gradeAnswer qs idx answer now rand).questions.length) := by
  by_cases hm : pyLower (pyStrip answer) = pyLower (qs.getD idx default).term
  · rw [gradeAnswer_match hm]
    constructor
    · simpa using hm
    · intro _
      rw [getD_set_self h1]
      refine ⟨?_, ?_, ?_, ?_⟩ <;> simp [gradedCorrect, h3]
  · rw [gradeAnswer_mismatch hm]
    constructor
    · constructor
      · intro h
        exact absurd h (by simp)
      · intro h
        exact absurd h hm
    · intro h
      exact absurd h (by simp)

/-- C6 witness: term "Loop", answer "loop": graded correct, correct_count
and attempts bumped by one, last_seen stamped, index valid. -/
theorem gradeAnswer_match_rule_witness :
    ((gradeAnswer [mkQ "L" "d" "Loop" 1 0 1] 0 "loop" "t" 0).wasCorrect = true) ∧
    ((gradeAnswer [mkQ "L" "d" "Loop" 1 0 1] 0 "loop" "t" 0).questions.getD 0
      default).correct_count = 1 ∧
    ((gradeAnswer [mkQ "L" "d" "Loop" 1 0 1] 0 "loop" "t" 0).questions.getD 0
      default).attempts = 2 ∧
    ((gradeAnswer [mkQ "L" "d" "Loop" 1 0 1] 0 "loop" "t" 0).questions.getD 0
      default).last_seen = some "t" ∧
    (gradeAnswer [mkQ "L" "d" "Loop" 1 0 1] 0 "loop" "t" 0).index
      < (gradeAnswer [mkQ "L" "d" "Loop" 1 0 1] 0 "loop" "t" 0).questions.length := by
  have h := gradeAnswer_match_rule [mkQ "L" "d" "Loop" 1 0 1] 0 "loop" "t" 0
    (by decide) (by decide) (by decide)
  have hc : (gradeAnswer [mkQ "L" "d" "Loop" 1 0 1] 0 "loop" "t" 0).wasCorrect = true :=
    h.1.mpr (by decide)
  obtain ⟨hcc, hat, hls, hidx⟩ := h.2 hc
  refine ⟨hc, ?_, ?_, hls, hidx⟩
  · rw [hcc]
    decide
  · rw [hat]
    decide

theorem getD_eq_get_of_lt {xs : List String} {j : Nat} (h : j < xs.length) :
    xs.getD j "" = xs.get ⟨j, h⟩ := by
  rw [List.getD_eq_getElem?_getD, List.getElem?_eq_getElem h]
  rfl

theorem allTerms_ne {qs : List Question} {idx : Nat} {s : String}
    (hs : s ∈ allTerms qs idx) : s ≠ (qs.getD idx default).term := by
  simp only [allTerms, List.mem_map, List.mem_filter] at hs
  obtain ⟨q, ⟨_, hq⟩, rfl⟩ := hs
  simpa using hq

theorem sampleByIdx_mem {xs : List String} {picks : List Nat}
    (hv : ∀ j ∈ picks, j < xs.length) {s : String}
    (hs : s ∈ sampleByIdx xs picks) : s ∈ xs := by
  simp only [sampleByIdx, List.mem_map] at hs
  obtain ⟨j, hj, rfl⟩ := hs
  rw [getD_eq_get_of_lt (hv j hj), List.get_eq_getElem]
  exact List.getElem_mem _

theorem sampleByIdx_nodup {xs : List String} {picks : List Nat}
    (hx : xs.Nodup) (hp : picks.Nodup) (hv : ∀ j ∈ picks, j < xs.length) :
    (sampleByIdx xs picks).Nodup := by
  refine List.Nodup.map_on ?_ hp
  intro a ha b hb hab
  rw [getD_eq_get_of_lt (hv a ha), getD_eq_get_of_lt (hv b hb)] at hab
  have h3 := hx.get_inj_iff.mp hab
  simpa using congrArg Fin.val h3

/-- C5 counterexample: with terms X, Y, Y the distractor pool is
["Y", "Y"] — not deduplicated — so the sample size is min(3, 2) = 2 and
every valid draw returns Y twice: the produced options are
["X", "Y", "Y"], a length-3 list with a duplicate, where the claim
predicts a duplicate-free choice set of size min(4, 2 distinct terms)
= 2. -/
theorem mcOptions_duplicate_counterexample :
    validSample (allTerms [mkQ "x" "d" "X" 0 0 0, mkQ "y1" "d" "Y" 0 0 0,
        mkQ "y2" "d" "Y" 0 0 0] 0)
      (min 3 (allTerms [mkQ "x" "d" "X" 0 0 0, mkQ "y1" "d" "Y" 0 0 0,
        mkQ "y2" "d" "Y" 0 0 0] 0).length) [0, 1] ∧
    mcOptions [mkQ "x" "d" "X" 0 0 0, mkQ "y1" "d" "Y" 0 0 0,
        mkQ "y2" "d" "Y" 0 0 0] 0 [0, 1] = ["X", "Y", "Y"] ∧
    ¬ (mcOptions [mkQ "x" "d" "X" 0 0 0, mkQ "y1" "d" "Y" 0 0 0,
        mkQ "y2" "d" "Y" 0 0 0] 0 [0, 1]).Nodup :=
  ⟨⟨by decide, by decide, by decide⟩, by decide, by decide⟩

/-- C5 (amended): the option list is the correct term consed onto
min(3, number of other-question terms counted WITH multiplicity) terms
sampled without replacement by position from the non-deduplicated pool;
the correct term always appears exactly once, and the options are
duplicate-free whenever the other terms are pairwise distinct (so with at
least 3 distinct other terms the list has size exactly 4 and no
duplicates) — but duplicates do occur when distinct other questions share
a term. -/
theorem mcOptions_spec (qs : List Question) (idx : Nat) (picks : List Nat)
    (hv : validSample (allTerms qs idx) (min 3 (allTerms qs idx).length) picks) :
    (mcOptions qs idx picks).length = 1 + min 3 (allTerms qs idx).length ∧
    (mcOptions qs idx picks).count (qs.getD idx default).term = 1 ∧
    ((allTerms qs idx).Nodup → (mcOptions qs idx picks).Nodup) := by
  obtain ⟨hnd, hlen, hval⟩ := hv
  have hnotin : (qs.getD idx default).term ∉ sampleByIdx (allTerms qs idx) picks := by
    intro hmem
    exact allTerms_ne (sampleByIdx_mem hval hmem) rfl
  refine ⟨?_, ?_, ?_⟩
  · simp only [mcOptions, List.length_cons, sampleByIdx, List.length_map, hlen]
    omega
  · rw [mcOptions, List.count_cons_self, List.count_eq_zero.mpr hnotin]
  · intro hx
    rw [mcOptions, List.nodup_cons]
    exact ⟨hnotin, sampleByIdx_nodup hx hnd hval⟩

/-- C5 witness: with three distinct other terms A, B, C and correct term X,
any full draw yields four pairwise-distinct options containing X once. -/
theorem mcOptions_spec_witness :
    (mcOptions [mkQ "x" "d" "X" 0 0 0, mkQ "a" "d" "A" 0 0 0, mkQ "b" "d" "B" 0 0 0,
        mkQ "c" "d" "C" 0 0 0] 0 [0, 1, 2]).length = 4 ∧
    (mcOptions [mkQ "x" "d" "X" 0 0 0, mkQ "a" "d" "A" 0 0 0, mkQ "b" "d" "B" 0 0 0,
        mkQ "c" "d" "C" 0 0 0] 0 [0, 1, 2]).count "X" = 1 ∧
    (mcOptions [mkQ "x" "d" "X" 0 0 0, mkQ "a" "d" "A" 0 0 0, mkQ "b" "d" "B" 0 0 0,
        mkQ "c" "d" "C" 0 0 0] 0 [0, 1, 2]).Nodup := by
  have h := mcOptions_spec [mkQ "x" "d" "X" 0 0 0, mkQ "a" "d" "A" 0 0 0,
    mkQ "b" "d" "B" 0 0 0, mkQ "c" "d" "C" 0 0 0] 0 [0, 1, 2]
    ⟨by decide, by decide, by decide⟩
  refine ⟨?_, h.2.1, h.2.2 (by decide)⟩
  · rw [h.1]
    decide

theorem pyOr_str (s : String) : (PyVal.str s).pyOr (PyVal.str "") = PyVal.str s := by
  by_cases h : s = "" <;> simp [PyVal.pyOr, PyVal.truthy, h]

theorem pyOr_int (n : Int) : (PyVal.int n).pyOr (PyVal.int 0) = PyVal.int n := by
  by_cases h : n = 0 <;> simp [PyVal.pyOr, PyVal.truthy, h]

theorem pyOr_list (xs : List PyVal) :
    (PyVal.list xs).pyOr (PyVal.list []) = PyVal.list xs := by
  cases xs <;> simp [PyVal.pyOr, PyVal.truthy]

theorem pyOr_str_of_ne {s : String} (h : s ≠ "") (b : PyVal) :
    (PyVal.str s).pyOr b = PyVal.str s := by
  simp [PyVal.pyOr, PyVal.truthy, h]

/-- A canonical dict with a non-empty id passes through the load
normalisation unchanged. -/
theorem loadRow_toDict (q : Question) (fresh : String) (hid : q.id ≠ "") :
    loadRow (Question.toDict q) fresh = some (Question.toDict q) := by
  show some (make_question (PyVal.str q.definition) (PyVal.str q.term)
      (PyVal.int q.attempts) (PyVal.int q.correct_count) (PyVal.int q.wrong_count)
      (match q.last_seen with | Option.none => PyVal.none | some s => PyVal.str s)
      (PyVal.str q.topic) (PyVal.str q.level) (PyVal.list (q.tags.map PyVal.str))
      (PyVal.str q.notes) (PyVal.str q.id) fresh) = some (Question.toDict q)
  rw [make_question, pyOr_str, pyOr_str, pyOr_int, pyOr_int, pyOr_int, pyOr_str,
    pyOr_str, pyOr_list, pyOr_str, pyOr_str_of_ne hid]
  rfl

/-- C9: saving a collection of canonical records (all ids non-empty, as
every record created by the program has) and loading it back yields the
identical row list — every field of every record round-trips. -/
theorem save_load_roundtrip (qs : List Question) (gen : Nat → String) (k : Nat)
    (h : ∀ q ∈ qs, q.id ≠ "") :
    load_questions (save_questions qs) gen k = save_questions qs := by
  induction qs generalizing k with
  | nil => rfl
  | cons q rest ih =>
    have hq : q.id ≠ "" := h q (by simp)
    have hrest : ∀ p ∈ rest, p.id ≠ "" := fun p hp => h p (by simp [hp])
    show load_questions (Question.toDict q :: save_questions rest) gen k
      = Question.toDict q :: save_questions rest
    rw [load_questions, loadRow_toDict q (gen k) hq]
    exact congrArg _ (ih (k + 1) hrest)

/-- C9 witness: a concrete two-record collection (one with metadata and a
timestamp) round-trips through save and load unchanged. -/
theorem save_load_roundtrip_witness :
    load_questions (save_questions [mkQ "a" "2+2" "4" 1 1 0,
      { id := "b"
        definition := "Define loop"
        term := "Loop"
        attempts := 2
        correct_count := 1
        wrong_count := 1
        last_seen := some "2026-01-01"
        topic := "syntax"
        level := "1"
        tags := ["cs", "basics"]
        notes := "n" }]) (fun _ => "u") 0
      = save_questions [mkQ "a" "2+2" "4" 1 1 0,
      { id := "b"
        definition := "Define loop"
        term := "Loop"
        attempts := 2
        correct_count := 1
        wrong_count := 1
        last_seen := some "2026-01-01"
        topic := "syntax"
        level := "1"
        tags := ["cs", "basics"]
        notes := "n" }] :=
  save_load_roundtrip _ (fun _ => "u") 0 (by decide)

/-- The id of a loaded record: the truthy stored id when there is one, else
the fresh uuid string available to the row. -/
theorem loadRow_id {item : PyVal} {fresh : String} {r : PyVal}
    (h : loadRow item fresh = some r) :
    loadedId r = (storedId item).getD (PyVal.str fresh) := by
  cases item with
  | list xs =>
    obtain rfl := Option.some.inj h
    rfl
  | dict kvs =>
    obtain rfl := Option.some.inj h
    show ((PyVal.dict kvs).get "id" PyVal.none).pyOr (PyVal.str fresh)
      = (storedId (PyVal.dict kvs)).getD (PyVal.str fresh)
    by_cases ht : ((PyVal.dict kvs).get "id" PyVal.none).truthy
    · rw [storedId, if_pos ht]
      simp [PyVal.pyOr, ht]
    · rw [storedId, if_neg ht]
      simp [PyVal.pyOr, ht]
  | none => simp [loadRow] at h
  | bool b => simp [loadRow] at h
  | int n => simp [loadRow] at h
  | str s => simp [loadRow] at h

theorem storedId_truthy {item v : PyVal} (h : storedId item = some v) :
    v.truthy = true := by
  cases item with
  | dict kvs =>
    by_cases ht : ((PyVal.dict kvs).get "id" PyVal.none).truthy
    · rw [storedId, if_pos ht] at h
      obtain rfl := Option.some.inj h
      exact ht
    · rw [storedId, if_neg ht] at h
      exact absurd h (by simp)
  | none => simp [storedId] at h
  | bool b => simp [storedId] at h
  | int n => simp [storedId] at h
  | str s => simp [storedId] at h
  | list xs => simp [storedId] at h

/-- C10 counterexample: a dict row with the truthy non-string stored id 7
keeps it as-is, so the id of the loaded record is the integer 7 — not a
non-empty string as the claim states. -/
theorem load_nonstring_id_counterexample :
    ((load_questions [PyVal.dict [("id", PyVal.int 7)]] (fun _ => "u") 0).map loadedId)
      = [PyVal.int 7] ∧
    (PyVal.int 7).isStr = false :=
  ⟨rfl, rfl⟩

/-- C10 (amended): every record returned by load has a truthy id — but not
necessarily a string one: a row with a truthy stored id keeps it as-is,
whatever its JSON type, while every legacy array row and every dict row
with a missing or falsy (empty) id gets the freshly generated uuid string,
which is non-empty. -/
theorem load_ids_spec (rows : List PyVal) (gen : Nat → String) (k : Nat)
    (hgen : ∀ a, gen a ≠ "") :
    (∀ r ∈ load_questions rows gen k, (loadedId r).truthy = true) ∧
    (∀ item fresh r, loadRow item fresh = some r →
      loadedId r = (storedId item).getD (PyVal.str fresh)) := by
  refine ⟨?_, fun item fresh r h => loadRow_id h⟩
  induction rows generalizing k with
  | nil =>
    intro r hr
    simp [load_questions] at hr
  | cons item rest ih =>
    intro r hr
    rw [load_questions] at hr
    cases hrow : loadRow item (gen k) with
    | none =>
      rw [hrow] at hr
      exact ih (k + 1) r hr
    | some r0 =>
      rw [hrow] at hr
      rcases List.mem_cons.mp hr with rfl | hr2
      · rw [loadRow_id hrow]
        cases hs : storedId item with
        | none => simpa [PyVal.truthy] using hgen k
        | some v =>
          rw [Option.getD_some]
          exact storedId_truthy hs
      · exact ih (k + 1) r hr2

/-- C10 witness: a legacy row gets the fresh uuid string "u" as id, which
is truthy. -/
theorem load_ids_spec_witness :
    (loadedId (make_question (PyVal.str "2+2") (PyVal.str "4") (PyVal.int 0)
      (PyVal.int 0) (PyVal.int 0) PyVal.none (PyVal.str "") (PyVal.str "")
      PyVal.none (PyVal.str "") PyVal.none "u")).truthy = true := by
  have h := load_ids_spec [PyVal.list [PyVal.str "2+2", PyVal.str "4"]]
    (fun _ => "u") 0 (fun a => by show ("u" : String) ≠ ""; decide)
  exact h.1 _ (List.mem_singleton.mpr rfl)

theorem set_getD_self {α : Type} [Inhabited α] {l : List α} {i : Nat}
    (h : i < l.length) : l.set i (l.getD i default) = l := by
  apply List.ext_getElem?
  intro j
  rw [List.getElem?_set]
  by_cases hij : i = j
  · subst hij
    simp [h, List.getD_eq_getElem?_getD, List.getElem?_eq_getElem h]
  · simp [hij]

/-- Replacing a record by one carrying the same id leaves the id list
unchanged. -/
theorem map_id_set_of_id_eq {qs : List Question} {i : Nat} {form_q : Question}
    (h : i < qs.length) (hid : (qs.getD i default).id = form_q.id) :
    List.map Question.id (qs.set i form_q) = List.map Question.id qs := by
  rw [List.map_set]
  have h2 : form_q.id = (List.map Question.id qs).getD i default := by
    rw [List.getD_eq_getElem?_getD, List.getElem?_map, List.getElem?_eq_getElem h, ← hid,
      List.getD_eq_getElem?_getD, List.getElem?_eq_getElem h]
    rfl
  rw [h2, set_getD_self (by simpa using h)]

theorem mem_storedIds_cons {item : PyVal} {rest : List PyVal} {x : PyVal}
    (h : x ∈ storedIds rest) : x ∈ storedIds (item :: rest) := by
  rw [storedIds, List.filterMap_cons]
  cases storedId item with
  | none => exact h
  | some v => exact List.mem_cons_of_mem v h

/-- Every id among the loaded records is either a truthy stored id or one
of the fresh uuids handed to a row at position ≥ k. -/
theorem load_questions_mem_id {rows : List PyVal} {gen : Nat → String} {k : Nat}
    {x : PyVal} (hx : x ∈ (load_questions rows gen k).map loadedId) :
    x ∈ storedIds rows ∨ ∃ a, k ≤ a ∧ x = PyVal.str (gen a) := by
  induction rows generalizing k with
  | nil => simp [load_questions] at hx
  | cons item rest ih =>
    rw [load_questions] at hx
    cases hrow : loadRow item (gen k) with
    | none =>
      rw [hrow] at hx
      rcases ih hx with h | ⟨a, ha, rfl⟩
      · exact Or.inl (mem_storedIds_cons h)
      · exact Or.inr ⟨a, by omega, rfl⟩
    | some r =>
      rw [hrow] at hx
      rw [List.map_cons] at hx
      rcases List.mem_cons.mp hx with rfl | hx2
      · rw [loadRow_id hrow]
        cases hs : storedId item with
        | none => exact Or.inr ⟨k, Nat.le_refl k, rfl⟩
        | some v =>
          left
          rw [Option.getD_some, storedIds, List.filterMap_cons, hs]
          exact List.mem_cons_self v _
      · rcases ih hx2 with h | ⟨a, ha, rfl⟩
        · exact Or.inl (mem_storedIds_cons h)
        · exact Or.inr ⟨a, by omega, rfl⟩

/-- Loading preserves distinctness of ids: if the truthy stored ids are
pairwise distinct, the uuid supply is injective and avoids the stored ids,
the loaded records carry pairwise-distinct ids. -/
theorem load_ids_nodup {rows : List PyVal} {gen : Nat → String} (k : Nat)
    (hs : (storedIds rows).Nodup)
    (hinj : ∀ a b, gen a = gen b → a = b)
    (havoid : ∀ a, PyVal.str (gen a) ∉ storedIds rows) :
    ((load_questions rows gen k).map loadedId).Nodup := by
  induction rows generalizing k with
  | nil => simp [load_questions]
  | cons item rest ih =>
    have hs' : (storedIds rest).Nodup := by
      rw [storedIds, List.filterMap_cons] at hs
      cases h : storedId item with
      | none => rwa [h] at hs
      | some v =>
        rw [h] at hs
        exact (List.nodup_cons.mp hs).2
    have havoid' : ∀ a, PyVal.str (gen a) ∉ storedIds rest := fun a ha =>
      havoid a (mem_storedIds_cons ha)
    rw [load_questions]
    cases hrow : loadRow item (gen k) with
    | none => exact ih (k + 1) hs' havoid'
    | some r =>
      rw [List.map_cons, List.nodup_cons]
      refine ⟨?_, ih (k + 1) hs' havoid'⟩
      intro hmem
      rcases load_questions_mem_id hmem with hin | ⟨a, ha, heq⟩
      · rw [loadRow_id hrow] at hin
        cases hsi : storedId item with
        | none =>
          rw [hsi, Option.getD_none] at hin
          exact havoid' k hin
        | some v =>
          rw [hsi, Option.getD_some] at hin
          have hcons : storedIds (item :: rest) = v :: storedIds rest := by
            rw [storedIds, List.filterMap_cons, hsi]
            rfl
          rw [hcons] at hs
          exact (List.nodup_cons.mp hs).1 hin
      · rw [loadRow_id hrow] at heq
        cases hsi : storedId item with
        | none =>
          rw [hsi, Option.getD_none] at heq
          have hka : k = a := hinj k a (by injection heq)
          omega
        | some v =>
          rw [hsi, Option.getD_some] at heq
          apply havoid a
          rw [← heq, storedIds, List.filterMap_cons, hsi]
          exact List.mem_cons_self v _

/-- Appending a record whose id is not yet present keeps the ids distinct. -/
theorem map_id_append_nodup {qs : List Question} {form_q : Question}
    (h : (List.map Question.id qs).Nodup)
    (hf : find_index_by_id qs form_q.id = Option.none) :
    (List.map Question.id (qs ++ [form_q])).Nodup := by
  rw [List.map_append, List.nodup_append]
  refine ⟨h, List.nodup_singleton _, ?_⟩
  intro x hx hx2
  rw [List.map_singleton, List.mem_singleton] at hx2
  subst hx2
  rcases List.mem_map.mp hx with ⟨q, hq, hqid⟩
  exact find_index_by_id_none.mp hf q hq hqid

/-- C3 counterexample: starting from a singleton collection whose only id
is "b" (pairwise distinct), an admin add submission carrying the same id
"b" is appended, producing the id list ["b", "b"]: the uniqueness
invariant is not preserved by the add action. -/
theorem id_uniqueness_counterexample :
    qIds (adminAddSave [mkQ "b" "d" "t" 0 0 0] AdminAction.add
      (mkQ "b" "d2" "t2" 0 0 0)).questions = ["b", "b"] ∧
    ¬ (qIds (adminAddSave [mkQ "b" "d" "t" 0 0 0] AdminAction.add
      (mkQ "b" "d2" "t2" 0 0 0)).questions).Nodup :=
  ⟨rfl, by decide⟩

/-- C3 (amended): starting from a collection with pairwise-distinct ids,
quiz grading, shuffling, admin save and admin delete all preserve the
distinctness of ids; admin add preserves it when the submitted id matches
no existing record (an add whose id matches an existing record creates a
duplicate instead); and load-time migration yields pairwise-distinct ids
provided the truthy stored ids are pairwise distinct and the generated
uuids are injective and avoid the stored ids. -/
theorem id_uniqueness (qs : List Question) (h : (qIds qs).Nodup) :
    (∀ idx answer now rand, idx < qs.length →
      (qIds (gradeAnswer qs idx answer now rand).questions).Nodup) ∧
    (∀ qs2, shuffleReachable qs qs2 → (qIds qs2).Nodup) ∧
    (∀ form_q, (qIds (adminAddSave qs AdminAction.save form_q).questions).Nodup) ∧
    (∀ form_q, find_index_by_id qs form_q.id = Option.none →
      (qIds (adminAddSave qs AdminAction.add form_q).questions).Nodup) ∧
    (∀ qid, (qIds (adminDelete qs qid).questions).Nodup) ∧
    (∀ rows gen k, (storedIds rows).Nodup → (∀ a b, gen a = gen b → a = b) →
      (∀ a, PyVal.str (gen a) ∉ storedIds rows) →
      ((load_questions rows gen k).map loadedId).Nodup) := by
  refine ⟨?_, ?_, ?_, ?_, ?_,
    fun rows gen k hs hinj havoid => load_ids_nodup k hs hinj havoid⟩
  · intro idx answer now rand hidx
    by_cases hm : pyLower (pyStrip answer) = pyLower (qs.getD idx default).term
    · rw [gradeAnswer_match hm]
      show (List.map Question.id
        (qs.set idx (gradedCorrect (qs.getD idx default) now))).Nodup
      rw [map_id_set_of_id_eq hidx (show (qs.getD idx default).id
        = (gradedCorrect (qs.getD idx default) now).id from rfl)]
      exact h
    · rw [gradeAnswer_mismatch hm]
      show (List.map Question.id
        (qs.set idx (gradedWrong (qs.getD idx default) now))).Nodup
      rw [map_id_set_of_id_eq hidx (show (qs.getD idx default).id
        = (gradedWrong (qs.getD idx default) now).id from rfl)]
      exact h
  · intro qs2 hperm
    exact (hperm.map Question.id).nodup h
  · intro form_q
    by_cases hf : find_index_by_id qs form_q.id = Option.none
    · rw [adminAddSave, if_pos (Or.inr hf)]
      exact map_id_append_nodup h hf
    · obtain ⟨i, hi⟩ := Option.ne_none_iff_exists'.mp hf
      have hcond : ¬ (AdminAction.save = AdminAction.add ∨
          find_index_by_id qs form_q.id = Option.none) := by
        simp [hi]
      rw [adminAddSave, if_neg hcond, hi, Option.getD_some]
      obtain ⟨hlt, hid⟩ := find_index_by_id_some hi
      show (List.map Question.id (qs.set i form_q)).Nodup
      rw [map_id_set_of_id_eq hlt hid]
      exact h
  · intro form_q hf
    rw [adminAddSave, if_pos (Or.inl rfl)]
    exact map_id_append_nodup h hf
  · intro qid
    by_cases hq : qid = ""
    · rw [adminDelete, if_pos hq]
      exact h
    · rw [adminDelete, if_neg hq]
      cases hfind : find_index_by_id qs qid with
      | none => exact h
      | some i =>
        show (List.map Question.id (qs.eraseIdx i)).Nodup
        exact ((List.eraseIdx_sublist qs i).map Question.id).nodup h

/-- C3 witness: deleting a record from a two-record collection with
distinct ids leaves the ids distinct. -/
theorem id_uniqueness_witness :
    (qIds (adminDelete [mkQ "a" "d" "t" 0 0 0, mkQ "b" "d" "t" 0 0 0] "a").questions).Nodup := by
  have h := id_uniqueness [mkQ "a" "d" "t" 0 0 0, mkQ "b" "d" "t" 0 0 0] (by decide)
  exact h.2.2.2.2.1 "a"
